import Mathlib

/-!
# Verification of the user staking-data core
(`src/providers/local/staking/userUserStakingData.ts`)

Shallow embedding of the staking-data reconciliation engine of
`useUserStakingData`.  Conventions of the embedding:

* JS strings stay `String`; JS arrays become `List`.
* A JS plain object used as a map (the result of `Object.fromEntries`) is
  embedded as an association list `List (String × String)` in key-insertion
  order, with a later duplicate key overwriting the value in place
  (`fromEntries` below), which is exactly the JS semantics.
* A query result that may still be `undefined` becomes an `Option`.
* Fiat values produced by the (external, opaque) valuation function and summed
  with `bignumber.js` are embedded as exact rationals `ℚ`: `BigNumber.plus` on
  decimal values is exact, `bnum(0)` is `(0 : ℚ)` and its rendering
  `toString` is the decimal numeral, so the string `"0"` is embedded as
  `(0 : ℚ)`.
* The vue-query / react-query sub-fetch lifecycle is embedded as a small
  labelled transition system `QStep` over `FetchState`: a disabled query can
  never leave `idle`.
-/

namespace UserStakingData

/-- `gauge: { poolId: string }` field of a gauge share (source lines 23–25). -/
structure Gauge where
  poolId : String
deriving DecidableEq, Repr

/-- `UserGuageShare` (sic, name from the source, lines 21–27):
one gauge share owned by the user, with its decimal `balance` string. -/
structure UserGuageShare where
  id : String
  gauge : Gauge
  balance : String
deriving DecidableEq, Repr

/-- `UserLiquidityGauge` (source lines 29–35). -/
structure UserLiquidityGauge where
  id : Option String
  poolId : String
  shares : List String
deriving DecidableEq, Repr

/-- `UserGuageSharesResponse` (source lines 37–40): the combined gauge-share /
liquidity-gauge graph query response. -/
structure UserGuageSharesResponse where
  gaugeShares : List UserGuageShare
  liquidityGauges : List UserLiquidityGauge
deriving DecidableEq, Repr

/-- External pool-metadata record (shape external to this repository; only the
`id` field is inspected by the core). -/
structure Pool where
  id : String
deriving DecidableEq, Repr

/-- A pool decorated with the staked-balance lookup `bpt` and its fiat value
`shares` (the object literal built at source lines 223–227).  `bpt` is
`Option` because the `stakedSharesMap[pool.id]` lookup is unguarded and can be
`undefined`; `shares` is the exact rational embedding of the fiat value. -/
structure DecoratedPoolWithShares where
  pool : Pool
  shares : ℚ
  bpt : Option String
deriving DecidableEq, Repr

/-! ## JS object / lodash primitives -/

/-- Setting `k := v` on a JS object embedded as an association list: overwrite
in place if the key is present, append otherwise. -/
def insertEntry (m : List (String × String)) (k v : String) :
    List (String × String) :=
  if m.any (fun p => p.1 == k) then
    m.map (fun p => if p.1 == k then (k, v) else p)
  else m ++ [(k, v)]

/-- `Object.fromEntries`: build the object left to right, a later duplicate
key overwriting the earlier value. -/
def fromEntries (l : List (String × String)) : List (String × String) :=
  l.foldl (fun m p => insertEntry m p.1 p.2) []

/-- Property read `m[k]` on the embedded object: `none` is `undefined`. -/
def lookupEntry (m : List (String × String)) (k : String) : Option String :=
  (m.find? (fun p => p.1 == k)).map (fun p => p.2)

/-- Helper for lodash `intersection`: keep the first occurrence of every
value, dropping values already seen. -/
def dedupFirstAux (seen : List String) : List String → List String
  | [] => []
  | x :: xs =>
    if x ∈ seen then dedupFirstAux seen xs
    else x :: dedupFirstAux (x :: seen) xs

/-- lodash `intersection(l₁, l₂)`: the unique values of `l₁` that also occur
in `l₂`, in first-array order. -/
def intersection (l₁ l₂ : List String) : List String :=
  dedupFirstAux [] (l₁.filter (fun x => x ∈ l₂))

/-! ## Sub-fetch lifecycle -/

/-- The lifecycle of one vue-query sub-fetch: `idle` (disabled or never
triggered), `loading` (in flight, no result yet), `success` (settled with a
value), `failure` (settled with an error). -/
inductive FetchState (α : Type) where
  | idle
  | loading
  | success (v : α)
  | failure
deriving DecidableEq, Repr

/-- The `data` field exposed by the query: defined only once a fetch has
succeeded. -/
def FetchState.dataOf {α : Type} : FetchState α → Option α
  | .success v => some v
  | _ => none

/-- The `isLoading` flag exposed by the query. -/
def FetchState.isLoadingOf {α : Type} : FetchState α → Bool
  | .loading => true
  | _ => false

/-- One transition of a sub-fetch.  Every transition that starts a fetch
(`start`, `refetch`, `retry`) requires the query to be enabled; a disabled
query therefore never leaves `idle`. -/
inductive QStep (enabled : Bool) {α : Type} :
    FetchState α → FetchState α → Prop where
  | start : enabled = true → QStep enabled .idle .loading
  | succeed (v : α) : QStep enabled .loading (.success v)
  | fail : QStep enabled .loading .failure
  | refetch (v : α) : enabled = true → QStep enabled (.success v) .loading
  | retry : enabled = true → QStep enabled .failure .loading

/-! ## The core's definitions (source lines 100–252) -/

/-- `isStakingQueryEnabled = computed(() => !isL2.value)` (line 101). -/
def isStakingQueryEnabled (isL2 : Bool) : Bool := !isL2

/-- `isStakedSharesQueryEnabled = !!poolAddress.value && poolAddress.value != ''`
(lines 102–104; for a string both conjuncts mean "non-empty"). -/
def isStakedSharesQueryEnabled (poolAddress : String) : Bool :=
  !(poolAddress == "") && !(poolAddress == "")

/-- `stakeableUserPoolIds = intersection(userPoolIds, POOLS.Stakable.AllowList)`
(lines 105–107); the static allow-list is passed as a parameter. -/
def stakeableUserPoolIds (userPoolIds allowList : List String) : List String :=
  intersection userPoolIds allowList

/-- The cache key of the gauge-share graph query,
`['staking', 'data', { account, userPoolIds }]` (line 119). -/
def stakingQueryKey (account : String) (userPoolIds : List String) :
    String × String × String × List String :=
  ("staking", "data", account, userPoolIds)

/-- `stakedSharesForProvidedPool = stakedSharesResponse.value || '0'`
(lines 170–172): JS `||` falls through to `'0'` when the data is `undefined`
or the empty string. -/
def stakedSharesForProvidedPool (stakedSharesResponse : Option String) :
    String :=
  match stakedSharesResponse with
  | none => "0"
  | some s => if s == "" then "0" else s

/-- `userGaugeShares` (lines 174–177): the gauge-share list of the settled
response, `[]` while there is none. -/
def userGaugeShares (stakingData : Option UserGuageSharesResponse) :
    List UserGuageShare :=
  match stakingData with
  | none => []
  | some d => d.gaugeShares

/-- `stakedSharesMap` (lines 184–191): `Object.fromEntries` over
`(poolId, balance)` pairs of the gauge shares. -/
def stakedSharesMap (shares : List UserGuageShare) :
    List (String × String) :=
  fromEntries (shares.map (fun gaugeShare =>
    (gaugeShare.gauge.poolId, gaugeShare.balance)))

/-- `stakedPoolIds` (lines 194–199): `[]` while the gauge-share query is
loading, otherwise the poolIds of the gauge shares.  (The source's second
guard `!userGaugeShares.value` is dead: that computed is always an array.) -/
def stakedPoolIds (q : FetchState UserGuageSharesResponse) : List String :=
  if q.isLoadingOf then []
  else (userGaugeShares q.dataOf).map (fun share => share.gauge.poolId)

/-- `isStakedPoolsQueryEnabled = stakedPoolIds.value.length > 0`
(lines 200–202). -/
def isStakedPoolsQueryEnabled (ids : List String) : Bool :=
  decide (ids.length > 0)

/-- `stakedPools` (lines 218–230): decorate the pools of the FIRST page of the
pool-metadata response (`stakedPoolsResponse.value?.pages[0].pools || []`)
with the unguarded `stakedSharesMap` lookup and the external fiat valuation
`getBptBalanceFiatValue` (passed as the opaque parameter `valuate`).  The
response is `none` while nothing has settled; a settled infinite-query
response always carries at least one page (an empty `pages` array would make
the JS expression throw, so no claim is stated about it). -/
def stakedPools (stakedPoolsResponse : Option (List (List Pool)))
    (sharesMap : List (String × String))
    (valuate : Pool → Option String → ℚ) : List DecoratedPoolWithShares :=
  match stakedPoolsResponse with
  | none => []
  | some pages =>
    (pages.headD []).map (fun pool =>
      let stakedBpt := lookupEntry sharesMap pool.id
      { pool := pool, shares := valuate pool stakedBpt, bpt := stakedBpt })

/-- `totalStakedFiatValue` (lines 232–236):
`stakedPools.reduce((acc, { shares }) => acc.plus(shares), bnum(0))`, with
exact decimal arithmetic embedded in `ℚ`. -/
def totalStakedFiatValue (pools : List DecoratedPoolWithShares) : ℚ :=
  pools.foldl (fun acc p => acc + p.shares) 0

/-- The error taxonomy of the spec: a `configurationError` is the programmer
error thrown synchronously by `getStakedShares`; a `transportError` is a
failed graph query or RPC call surfaced by a collaborator. -/
inductive StakingError where
  | configurationError (msg : String)
  | transportError (msg : String)
deriving DecidableEq, Repr

/-- `getStakedShares` (lines 239–252).  The external collaborators —
`getGaugeAddress` composed with the checksum `getAddress`, the gauge
`balance` contract read, and `formatUnits(·, 18)` — are passed as opaque
parameters; any of them may fail with a transport error.  The guard
`if (!poolAddress.value) throw ...` runs before any collaborator is
consulted. -/
def getStakedShares (poolAddress account : String)
    (resolveGauge : String → Except StakingError String)
    (readBalance : String → String → Except StakingError Nat)
    (format : Nat → String) : Except StakingError String :=
  if poolAddress == "" then
    .error (.configurationError
      "Attempted to get staked shares, however useStaking was initialised without a pool address.")
  else do
    let gaugeAddress ← resolveGauge poolAddress
    let balance ← readBalance gaugeAddress account
    pure (format balance)

/-! ## Helper lemmas -/

/-- Folding `BigNumber.plus` over the `shares` fields from an accumulator adds
the sum of the shares to the accumulator. -/
lemma foldl_add_shares (l : List DecoratedPoolWithShares) (a : ℚ) :
    l.foldl (fun acc p => acc + p.shares) a
      = a + (l.map (fun p => p.shares)).sum := by
  induction l generalizing a with
  | nil => simp
  | cons p l ih => simp [ih, add_assoc]

/-- Every value kept by `dedupFirstAux` occurs in its input list. -/
lemma mem_of_mem_dedupFirstAux (x : String) :
    ∀ (seen l : List String), x ∈ dedupFirstAux seen l → x ∈ l := by
  intro seen l
  induction l generalizing seen with
  | nil => intro h; simp [dedupFirstAux] at h
  | cons y ys ih =>
    intro h
    rw [dedupFirstAux] at h
    by_cases hy : y ∈ seen
    · simp only [if_pos hy] at h
      exact List.mem_cons_of_mem _ (ih _ h)
    · simp only [if_neg hy, List.mem_cons] at h
      rcases h with h | h
      · exact h ▸ List.mem_cons_self _ _
      · exact List.mem_cons_of_mem _ (ih _ h)

/-- A sub-fetch that is disabled never leaves the `idle` state. -/
lemma disabled_stays_idle {α : Type} (s : FetchState α)
    (h : Relation.ReflTransGen (QStep false) (.idle : FetchState α) s) :
    s = .idle := by
  induction h with
  | refl => rfl
  | tail _ hbc ih =>
    subst ih
    cases hbc with
    | start henabled => exact absurd henabled (by simp)

/-- Building a JS object from entries whose keys are fresh for the
accumulator and pairwise distinct just appends the entries. -/
lemma foldl_insertEntry_append :
    ∀ (l acc : List (String × String)),
      (∀ p ∈ acc, p.1 ∉ l.map Prod.fst) →
      (l.map Prod.fst).Nodup →
      l.foldl (fun m p => insertEntry m p.1 p.2) acc = acc ++ l := by
  intro l
  induction l with
  | nil => intro acc _ _; simp
  | cons p l ih =>
    intro acc hdisj hnodup
    have hfresh : acc.any (fun q => q.1 == p.1) = false := by
      simp only [List.any_eq_false, beq_iff_eq]
      intro q hq
      have := hdisj q hq
      simp only [List.map_cons, List.mem_cons, not_or] at this
      exact this.1
    have hstep : insertEntry acc p.1 p.2 = acc ++ [(p.1, p.2)] := by
      rw [insertEntry, if_neg (by simp [hfresh])]
    simp only [List.map_cons, List.nodup_cons] at hnodup
    have hdisj' : ∀ q ∈ acc ++ [(p.1, p.2)], q.1 ∉ l.map Prod.fst := by
      intro q hq
      rcases List.mem_append.mp hq with hq | hq
      · have := hdisj q hq
        simp only [List.map_cons, List.mem_cons, not_or] at this
        exact this.2
      · simp only [List.mem_singleton] at hq
        subst hq
        exact hnodup.1
    calc (p :: l).foldl (fun m q => insertEntry m q.1 q.2) acc
        = l.foldl (fun m q => insertEntry m q.1 q.2) (acc ++ [(p.1, p.2)]) := by
          rw [List.foldl_cons, hstep]
      _ = (acc ++ [(p.1, p.2)]) ++ l := ih _ hdisj' hnodup.2
      _ = acc ++ p :: l := by simp

/-- `Object.fromEntries` is the identity on an entry list with pairwise
distinct keys. -/
lemma fromEntries_of_nodup (l : List (String × String))
    (h : (l.map Prod.fst).Nodup) : fromEntries l = l := by
  have := foldl_insertEntry_append l [] (by simp) h
  simpa [fromEntries] using this

/-- Reading a key that an association list with distinct keys binds to `v`
yields `v`. -/
lemma lookupEntry_of_nodup :
    ∀ (m : List (String × String)), (m.map Prod.fst).Nodup →
      ∀ k v, (k, v) ∈ m → lookupEntry m k = some v := by
  intro m
  induction m with
  | nil => intro _ k v h; simp at h
  | cons q m ih =>
    intro hnodup k v h
    simp only [List.map_cons, List.nodup_cons] at hnodup
    rcases List.mem_cons.mp h with h | h
    · subst h
      rw [lookupEntry, List.find?_cons_of_pos _ (by simp)]
      rfl
    · by_cases hk : q.1 = k
      · exfalso
        apply hnodup.1
        rw [hk]
        exact List.mem_map_of_mem Prod.fst h
      · rw [lookupEntry, List.find?_cons_of_neg _ (by simp [hk])]
        exact ih hnodup.2 k v h

/-- Reading a key absent from an association list yields `undefined`. -/
lemma lookupEntry_eq_none :
    ∀ (m : List (String × String)) (k : String),
      k ∉ m.map Prod.fst → lookupEntry m k = none := by
  intro m
  induction m with
  | nil => intro k _; rfl
  | cons q m ih =>
    intro k hk
    simp only [List.map_cons, List.mem_cons, not_or] at hk
    rw [lookupEntry,
      List.find?_cons_of_neg _ (by simp only [beq_iff_eq]; exact fun e => hk.1 e.symm)]
    exact ih k hk.2

/-! ## Claim theorems -/

/-- **C2.** `totalStakedFiatValue` equals the exact decimal sum of the
`shares` field over all entries of `stakedPools`, and the value is invariant
under any reordering (permutation) of the `stakedPools` list. -/
theorem totalStakedFiatValue_sum_perm
    (pools pools' : List DecoratedPoolWithShares)
    (h : pools.Perm pools') :
    totalStakedFiatValue pools = (pools.map (fun p => p.shares)).sum ∧
    totalStakedFiatValue pools = totalStakedFiatValue pools' := by
  have key : ∀ l : List DecoratedPoolWithShares,
      totalStakedFiatValue l = (l.map (fun p => p.shares)).sum := by
    intro l
    rw [totalStakedFiatValue, foldl_add_shares, zero_add]
  refine ⟨key pools, ?_⟩
  rw [key pools, key pools']
  exact (h.map (fun p => p.shares)).sum_eq

/-- Witness for C2 at two concrete decorated pools and their swap. -/
theorem totalStakedFiatValue_sum_perm_witness :
    totalStakedFiatValue
        [⟨⟨"A"⟩, (3 : ℚ), some "1.5"⟩, ⟨⟨"B"⟩, (4 : ℚ), none⟩]
      = ([⟨⟨"A"⟩, (3 : ℚ), some "1.5"⟩,
          (⟨⟨"B"⟩, (4 : ℚ), none⟩ : DecoratedPoolWithShares)].map
            (fun p => p.shares)).sum ∧
    totalStakedFiatValue
        [⟨⟨"A"⟩, (3 : ℚ), some "1.5"⟩, ⟨⟨"B"⟩, (4 : ℚ), none⟩]
      = totalStakedFiatValue
        [⟨⟨"B"⟩, (4 : ℚ), none⟩, ⟨⟨"A"⟩, (3 : ℚ), some "1.5"⟩] :=
  totalStakedFiatValue_sum_perm _ _
    (List.Perm.swap (⟨⟨"B"⟩, (4 : ℚ), none⟩ : DecoratedPoolWithShares)
      (⟨⟨"A"⟩, (3 : ℚ), some "1.5"⟩ : DecoratedPoolWithShares) [])

/-- **C3.** While the gauge-share query is loading, the staked-poolId list fed
to the enrichment query is empty, and the enrichment query is enabled exactly
when that poolId list is non-empty. -/
theorem stakedPoolIds_loading_empty (q : FetchState UserGuageSharesResponse)
    (h : q.isLoadingOf = true) :
    stakedPoolIds q = [] ∧
    ∀ q' : FetchState UserGuageSharesResponse,
      isStakedPoolsQueryEnabled (stakedPoolIds q') = true ↔
        stakedPoolIds q' ≠ [] := by
  constructor
  · rw [stakedPoolIds, if_pos h]
  · intro q'
    rw [isStakedPoolsQueryEnabled]
    simp [List.length_pos]

/-- Witness for C3 at the concrete `loading` state. -/
theorem stakedPoolIds_loading_empty_witness :
    stakedPoolIds (.loading : FetchState UserGuageSharesResponse) = [] ∧
    ∀ q' : FetchState UserGuageSharesResponse,
      isStakedPoolsQueryEnabled (stakedPoolIds q') = true ↔
        stakedPoolIds q' ≠ [] :=
  stakedPoolIds_loading_empty .loading rfl

/-- **C4, counterexample.** In the errored state of the direct-share query the
`data` is absent, and the exposed `stakedSharesForProvidedPool` is the default
`"0"`, not a distinct "not computable" value: a caller cannot distinguish a
genuine zero balance from a failed read. -/
theorem stakedSharesForProvidedPool_error_counterexample :
    (FetchState.failure : FetchState String).dataOf = none ∧
    stakedSharesForProvidedPool
        (FetchState.failure : FetchState String).dataOf = "0" ∧
    stakedSharesForProvidedPool
        (FetchState.failure : FetchState String).dataOf ≠ "not computable" :=
  ⟨rfl, rfl, by decide⟩

/-- **C4, amended.** `stakedSharesForProvidedPool` is `"0"` whenever no
successful direct reading is present — in the not-yet-settled states AND in
the errored state alike; the errored case is not distinguished. -/
theorem stakedSharesForProvidedPool_default (q : FetchState String)
    (h : q.dataOf = none) :
    stakedSharesForProvidedPool q.dataOf = "0" := by
  rw [h, stakedSharesForProvidedPool]

/-- Witness for amended C4 at the concrete errored state. -/
theorem stakedSharesForProvidedPool_default_witness :
    (FetchState.failure : FetchState String).dataOf = none ∧
    stakedSharesForProvidedPool
        (FetchState.failure : FetchState String).dataOf = "0" :=
  ⟨rfl, stakedSharesForProvidedPool_default .failure rfl⟩

/-- **C5, counterexample.** Two membership lists with the SAME stakeable
intersection (here both empty, allow-list `["A"]`) give DIFFERENT cache keys:
the key is built from the un-intersected `userPoolIds`, so the query
re-executes when only non-stakeable membership changes. -/
theorem stakingQueryKey_counterexample :
    stakeableUserPoolIds ["B"] ["A"] = stakeableUserPoolIds [] ["A"] ∧
    stakingQueryKey "0xabc" ["B"] ≠ stakingQueryKey "0xabc" [] := by
  exact ⟨rfl, by decide⟩

/-- **C5, amended.** The cache key is the tuple
`("staking", "data", account, userPoolIds)` over the FULL membership ids
(before intersection): it changes exactly when the account or the membership
id list changes; since the allow-list is static, a change of the stakeable set
forces a membership change and hence a key change, but the converse fails. -/
theorem stakingQueryKey_spec (a a' : String) (l l' allow : List String)
    (h : stakeableUserPoolIds l allow ≠ stakeableUserPoolIds l' allow) :
    (stakingQueryKey a l = stakingQueryKey a' l' ↔ (a = a' ∧ l = l')) ∧
    stakingQueryKey a l ≠ stakingQueryKey a l' := by
  constructor
  · simp [stakingQueryKey]
  · intro heq
    apply h
    have : l = l' := by
      simpa [stakingQueryKey] using heq
    rw [this]

/-- Witness for amended C5 at concrete lists whose stakeable sets differ. -/
theorem stakingQueryKey_spec_witness :
    (stakingQueryKey "0xabc" ["A"] = stakingQueryKey "0xabc" [] ↔
      ("0xabc" = "0xabc" ∧ (["A"] : List String) = [])) ∧
    stakingQueryKey "0xabc" ["A"] ≠ stakingQueryKey "0xabc" [] :=
  stakingQueryKey_spec "0xabc" "0xabc" ["A"] [] ["A"] (by decide)

/-- **C7.** The stakeable filter's output is a subset of the pool-membership
ids and of the allow-list, and an empty allow-list always yields the empty
output. -/
theorem stakeableUserPoolIds_subset (l₁ l₂ : List String) :
    (∀ x ∈ stakeableUserPoolIds l₁ l₂, x ∈ l₁ ∧ x ∈ l₂) ∧
    stakeableUserPoolIds l₁ [] = [] := by
  constructor
  · intro x hx
    have hmem : x ∈ l₁.filter (fun y => y ∈ l₂) :=
      mem_of_mem_dedupFirstAux x [] _ hx
    have := List.mem_filter.mp hmem
    exact ⟨this.1, by simpa using this.2⟩
  · have : l₁.filter (fun y => y ∈ ([] : List String)) = [] := by
      simp
    rw [stakeableUserPoolIds, intersection, this, dedupFirstAux]

/-- Witness for C7 at concrete membership `["A","B"]` and allow-list
`["A","C"]`. -/
theorem stakeableUserPoolIds_subset_witness :
    ("A" ∈ (["A", "B"] : List String) ∧ "A" ∈ (["A", "C"] : List String)) ∧
    stakeableUserPoolIds ["A", "B"] [] = [] :=
  ⟨(stakeableUserPoolIds_subset ["A", "B"] ["A", "C"]).1 "A" (by decide),
   (stakeableUserPoolIds_subset ["A", "B"] []).2⟩

/-- **C1.** For a gauge-share list whose poolIds are distinct (the uniqueness
the spec's data model assumes of the source data), `stakedSharesMap` has
exactly one entry per poolId of the list, in list order, each share's poolId
maps to that share's balance, and no other key is present. -/
theorem stakedSharesMap_spec (shares : List UserGuageShare)
    (h : (shares.map (fun s => s.gauge.poolId)).Nodup) :
    ((stakedSharesMap shares).map Prod.fst
        = shares.map (fun s => s.gauge.poolId)) ∧
    (∀ s ∈ shares,
        lookupEntry (stakedSharesMap shares) s.gauge.poolId
          = some s.balance) ∧
    (∀ k, k ∉ shares.map (fun s => s.gauge.poolId) →
        lookupEntry (stakedSharesMap shares) k = none) := by
  have hkeys :
      (shares.map (fun s => (s.gauge.poolId, s.balance))).map Prod.fst
        = shares.map (fun s => s.gauge.poolId) := by
    rw [List.map_map]
    rfl
  have hnodup :
      ((shares.map (fun s => (s.gauge.poolId, s.balance))).map
        Prod.fst).Nodup := by
    rw [hkeys]; exact h
  have hmap : stakedSharesMap shares
      = shares.map (fun s => (s.gauge.poolId, s.balance)) :=
    fromEntries_of_nodup _ hnodup
  refine ⟨by rw [hmap, hkeys], ?_, ?_⟩
  · intro s hs
    rw [hmap]
    exact lookupEntry_of_nodup _ hnodup _ _
      (List.mem_map_of_mem (fun s => (s.gauge.poolId, s.balance)) hs)
  · intro k hk
    rw [hmap]
    exact lookupEntry_eq_none _ k (by rw [hkeys]; exact hk)

/-- Witness for C1 at the single concrete share `(poolId "A", balance
"150.0")`. -/
theorem stakedSharesMap_spec_witness :
    ((stakedSharesMap [⟨"s1", ⟨"A"⟩, "150.0"⟩]).map Prod.fst
        = [(⟨"s1", ⟨"A"⟩, "150.0"⟩ : UserGuageShare)].map
            (fun s => s.gauge.poolId)) ∧
    lookupEntry (stakedSharesMap [⟨"s1", ⟨"A"⟩, "150.0"⟩]) "A"
      = some "150.0" :=
  ⟨(stakedSharesMap_spec [⟨"s1", ⟨"A"⟩, "150.0"⟩] (by decide)).1,
   (stakedSharesMap_spec [⟨"s1", ⟨"A"⟩, "150.0"⟩] (by decide)).2.1
     ⟨"s1", ⟨"A"⟩, "150.0"⟩ (by decide)⟩

/-- **C6.** Invoking `getStakedShares` with the empty pool address fails with
the `ConfigurationError`, whatever the external collaborators would answer
(none is consulted, so no fetch — hence no `Loading` transition — happens),
and the backing query is disabled, so its state machine never leaves
`idle`. -/
theorem getStakedShares_config_error (poolAddress : String)
    (h : poolAddress = "") :
    (∀ (account : String)
        (resolveGauge : String → Except StakingError String)
        (readBalance : String → String → Except StakingError Nat)
        (format : Nat → String),
        getStakedShares poolAddress account resolveGauge readBalance format
          = .error (.configurationError
              "Attempted to get staked shares, however useStaking was initialised without a pool address.")) ∧
    isStakedSharesQueryEnabled poolAddress = false ∧
    (∀ s : FetchState String,
        Relation.ReflTransGen
          (QStep (isStakedSharesQueryEnabled poolAddress)) .idle s →
        s = .idle) := by
  subst h
  refine ⟨fun _ _ _ _ => rfl, rfl, ?_⟩
  intro s hs
  have e : isStakedSharesQueryEnabled "" = false := rfl
  rw [e] at hs
  exact disabled_stays_idle s hs

/-- Witness for C6 at the empty pool address and concrete collaborators. -/
theorem getStakedShares_config_error_witness :
    getStakedShares "" "0xacc" (fun _ => .ok "0xgauge")
        (fun _ _ => .ok 5) (fun n => toString n)
      = .error (.configurationError
          "Attempted to get staked shares, however useStaking was initialised without a pool address.") ∧
    isStakedSharesQueryEnabled "" = false :=
  ⟨(getStakedShares_config_error "" rfl).1 "0xacc" (fun _ => .ok "0xgauge")
      (fun _ _ => .ok 5) (fun n => toString n),
   (getStakedShares_config_error "" rfl).2.1⟩

/-- **C8.** On a scaling-layer network (`isL2 = true`) the gauge-share query
is disabled and never transitions out of `idle`; consequently the enrichment
query is never enabled, `stakedSharesMap` is the empty map, and
`totalStakedFiatValue` is zero (rendered `"0"`). -/
theorem scaling_layer_idle (isL2 : Bool) (h : isL2 = true) :
    isStakingQueryEnabled isL2 = false ∧
    (∀ s : FetchState UserGuageSharesResponse,
        Relation.ReflTransGen (QStep (isStakingQueryEnabled isL2))
          .idle s → s = .idle) ∧
    stakedSharesMap (userGaugeShares
      (FetchState.dataOf (.idle : FetchState UserGuageSharesResponse)))
      = [] ∧
    isStakedPoolsQueryEnabled
      (stakedPoolIds (.idle : FetchState UserGuageSharesResponse)) = false ∧
    (∀ valuate : Pool → Option String → ℚ,
        totalStakedFiatValue (stakedPools none
          (stakedSharesMap (userGaugeShares
            (FetchState.dataOf
              (.idle : FetchState UserGuageSharesResponse))))
          valuate) = 0) := by
  subst h
  refine ⟨rfl, ?_, rfl, rfl, fun valuate => rfl⟩
  intro s hs
  have e : isStakingQueryEnabled true = false := rfl
  rw [e] at hs
  exact disabled_stays_idle s hs

/-- Witness for C8 at `isL2 = true`. -/
theorem scaling_layer_idle_witness :
    isStakingQueryEnabled true = false ∧
    stakedSharesMap (userGaugeShares
      (FetchState.dataOf (.idle : FetchState UserGuageSharesResponse)))
      = [] :=
  ⟨(scaling_layer_idle true rfl).1, (scaling_layer_idle true rfl).2.2.1⟩

/-- **C9.** `stakedPools` is built exclusively from the first page of the
pool-metadata response: while no response has settled it is `[]`; once one
has, the underlying pools of the decorated list are exactly the first page,
so a pool absent from the first page is never included. -/
theorem stakedPools_first_page_only :
    (∀ (m : List (String × String)) (valuate : Pool → Option String → ℚ),
        stakedPools none m valuate = []) ∧
    (∀ (p₀ : List Pool) (rest : List (List Pool))
        (m : List (String × String)) (valuate : Pool → Option String → ℚ),
        (stakedPools (some (p₀ :: rest)) m valuate).map (fun q => q.pool)
          = p₀) ∧
    (∀ (p₀ : List Pool) (rest : List (List Pool))
        (m : List (String × String)) (valuate : Pool → Option String → ℚ)
        (pool : Pool), pool ∉ p₀ →
        ∀ q ∈ stakedPools (some (p₀ :: rest)) m valuate, q.pool ≠ pool) := by
  have hmap : ∀ (p₀ : List Pool) (rest : List (List Pool))
      (m : List (String × String)) (valuate : Pool → Option String → ℚ),
      (stakedPools (some (p₀ :: rest)) m valuate).map (fun q => q.pool)
        = p₀ := by
    intro p₀ rest m valuate
    simp only [stakedPools, List.headD_cons, List.map_map]
    exact List.map_id p₀
  refine ⟨fun _ _ => rfl, hmap, ?_⟩
  intro p₀ rest m valuate pool hpool q hq heq
  apply hpool
  have hqmem : q.pool ∈ (stakedPools (some (p₀ :: rest)) m valuate).map
      (fun r => r.pool) :=
    List.mem_map_of_mem (fun r => r.pool) hq
  rw [hmap p₀ rest m valuate] at hqmem
  rw [heq] at hqmem
  exact hqmem

/-- Witness for C9 at a two-page response: pool "B" of the second page is
excluded. -/
theorem stakedPools_first_page_only_witness :
    stakedPools none [] (fun _ _ => 0) = [] ∧
    (stakedPools (some [[⟨"A"⟩], [⟨"B"⟩]]) [] (fun _ _ => 0)).map
        (fun q => q.pool) = [⟨"A"⟩] ∧
    (⟨⟨"A"⟩, 0, none⟩ : DecoratedPoolWithShares).pool ≠ ⟨"B"⟩ :=
  ⟨stakedPools_first_page_only.1 [] (fun _ _ => 0),
   stakedPools_first_page_only.2.1 [⟨"A"⟩] [[⟨"B"⟩]] [] (fun _ _ => 0),
   stakedPools_first_page_only.2.2 [⟨"A"⟩] [[⟨"B"⟩]] [] (fun _ _ => 0)
     ⟨"B"⟩ (by decide) ⟨⟨"A"⟩, 0, none⟩ (by decide)⟩

/-- **C10.** When the enrichment response contains a pool whose id is not a
key of `stakedSharesMap` (here pool "P1" against a map holding only "Q"), the
decorated entry is still produced — not omitted — with `bpt = undefined`
(`none`) from the unguarded lookup and with `shares` computed by the
valuation function from that undefined balance, not from a `"0"` default. -/
theorem stakedPools_unguarded_lookup (valuate : Pool → Option String → ℚ) :
    lookupEntry (stakedSharesMap [⟨"s1", ⟨"Q"⟩, "5"⟩]) "P1" = none ∧
    stakedPools (some [[⟨"P1"⟩]]) (stakedSharesMap [⟨"s1", ⟨"Q"⟩, "5"⟩])
        valuate
      = [⟨⟨"P1"⟩, valuate ⟨"P1"⟩ none, none⟩] :=
  ⟨rfl, rfl⟩

end UserStakingData
